import Mathlib

/-!
Verification of the cargo-licenses repository core against its specification.

The Rust sources are shallowly embedded:
* strings are modelled as Lean `String` / `List Char`;
* the license-expression tokenizer (src/check.rs, `parse_license_expression`),
  the user-input expansion (`expand_user_input`) and the policy checker
  (`check_licenses`) are translated function by function;
* the version resolver (src/fetch.rs, `fetch_best_match`) is translated with
  the HTTP layer stripped: the already-fetched version list is a parameter,
  and the semantics of the external `semver` crate (version parsing, version
  ordering, requirement matching) is embedded faithfully for the comparator
  grammar the repository exercises;
* the report builder (src/fetch.rs, `build_license_report`) is translated with
  the per-dependency resolution abstracted as a function parameter, and the
  unordered concurrent collection modelled as collection in input order
  (cardinality and per-dependency contents do not depend on the order).
-/

namespace CargoLicenses

/-! ### The license-expression tokenizer (src/check.rs) -/

/-- One scan of Rust `str::replace`: replaces every non-overlapping occurrence
of `pat` (left-to-right) with `rep`.  The extra `Nat` argument is fuel used to
justify termination; the wrapper `replaceAll` passes the length of the string,
which suffices because every step consumes at least one character (all call
sites pass a non-empty `pat`). -/
def replaceAllFuel (pat rep : List Char) : Nat → List Char → List Char
  | _, [] => []
  | 0, s => s
  | fuel + 1, c :: rest =>
    if pat.isPrefixOf (c :: rest) then
      rep ++ replaceAllFuel pat rep fuel ((c :: rest).drop pat.length)
    else
      c :: replaceAllFuel pat rep fuel rest

/-- Rust `str::replace(pat, rep)` on character lists. -/
def replaceAll (pat rep s : List Char) : List Char :=
  replaceAllFuel pat rep s.length s

/-- Rust `str::split(sep)` on character lists: splits at every separator,
keeping empty pieces (an empty input yields one empty piece, as in Rust). -/
def splitOnChar (sep : Char) (s : List Char) : List (List Char) :=
  s.foldr
    (fun c acc =>
      if c = sep then [] :: acc
      else
        match acc with
        | [] => [[c]]
        | h :: t => (c :: h) :: t)
    [[]]

/-- The bar split used by the tokenizer (src/check.rs line 14). -/
def splitBar (s : List Char) : List (List Char) :=
  splitOnChar '|' s

/-- The trimming predicate of src/check.rs line 15: whitespace or parentheses.
Rust uses Unicode `char::is_whitespace`; the embedding uses Lean
`Char.isWhitespace` (space, tab, CR, LF), which agrees on all ASCII input. -/
def isTrimChar (c : Char) : Bool :=
  c.isWhitespace || c = '(' || c = ')'

/-- Rust `str::trim_matches(pred)`: removes matching characters from both ends. -/
def trimMatches (p : Char → Bool) (s : List Char) : List Char :=
  ((s.dropWhile p).reverse.dropWhile p).reverse

/-- src/check.rs, `parse_license_expression`: normalizes the boolean operators
" OR ", " or ", " AND ", " and " (in this order, exactly as the four chained
`replace` calls in the source) into a bar, splits on bars, trims whitespace
and parentheses, and drops empty tokens. -/
def parse_license_expression (licenseStr : String) : List String :=
  let normalized :=
    replaceAll " and ".data "|".data
      (replaceAll " AND ".data "|".data
        (replaceAll " or ".data "|".data
          (replaceAll " OR ".data "|".data licenseStr.data)))
  (((splitBar normalized).map (trimMatches isTrimChar)).filter
      (fun s => !s.isEmpty)).map (fun s => String.mk s)

/-- src/check.rs, `expand_user_input`: expands every user-supplied deny/allow
entry through the tokenizer and concatenates the results. -/
def expand_user_input (licenseList : List String) : List String :=
  licenseList.foldl (fun expanded item => expanded ++ parse_license_expression item) []

/-! ### The license policy checker (src/check.rs) -/

/-- src/fetch.rs, `LicenseReport`. -/
structure LicenseReport where
  crate_name : String
  matched_version : String
  license : String
deriving Repr, DecidableEq

/-- The violation message pushed by the deny rule (src/check.rs lines 47-50). -/
def denyMsg (crateName lic : String) : String :=
  "Crate '" ++ crateName ++ "': sub-license '" ++ lic ++ "' is in the deny list."

/-- The violation message pushed by the allow rule (src/check.rs lines 59-62). -/
def allowMsg (crateName lic : String) : String :=
  "Crate '" ++ crateName ++ "': sub-license '" ++ lic ++ "' is NOT in the allow list."

/-- The accumulation loop of src/check.rs `check_licenses` lines 38-66: for
every report, tokenize its license, then push a message for every sub-license
found in the (non-empty) deny list and for every sub-license missing from the
(non-empty) allow list. -/
def collectViolations (reports : List LicenseReport) (deny allow : List String) :
    List String :=
  reports.foldl
    (fun acc r =>
      let subLicenses := parse_license_expression r.license
      let acc1 :=
        if deny = [] then acc
        else
          subLicenses.foldl
            (fun a lic => if lic ∈ deny then a ++ [denyMsg r.crate_name lic] else a)
            acc
      if allow = [] then acc1
      else
        subLicenses.foldl
          (fun a lic => if lic ∈ allow then a else a ++ [allowMsg r.crate_name lic])
          acc1)
    []

/-- src/check.rs, `check_licenses`: accumulates all violations and fails with a
single aggregated error exactly when the list is non-empty. -/
def check_licenses (reports : List LicenseReport) (deny allow : List String) :
    Except String Unit :=
  let violations := collectViolations reports deny allow
  if violations = [] then Except.ok ()
  else
    Except.error
      ("License check found these violations:\n" ++ String.intercalate "\n" violations)

/-- Modelled from the spec: the check subcommand driver (the async main that
wires cli.rs to check.rs is not part of src/) first expands the user-supplied
deny and allow lists through the tokenizer and then runs the policy checker
("Deny and allow lists are themselves first expanded through the tokenizer"). -/
def run_check (reports : List LicenseReport) (deny allow : List String) :
    Except String Unit :=
  check_licenses reports (expand_user_input deny) (expand_user_input allow)

/-! ### Characterization of the accumulated violation list -/

/-- The deny-rule violations a single report contributes (src/check.rs 44-53):
nothing when the deny list is empty, otherwise one message per tokenized
sub-license found in the deny list. -/
def denyHits (deny : List String) (r : LicenseReport) : List String :=
  if deny = [] then []
  else
    ((parse_license_expression r.license).filter
        (fun lic => decide (lic ∈ deny))).map (denyMsg r.crate_name)

/-- The allow-rule violations a single report contributes (src/check.rs 56-65):
nothing when the allow list is empty, otherwise one message per tokenized
sub-license missing from the allow list. -/
def allowHits (allow : List String) (r : LicenseReport) : List String :=
  if allow = [] then []
  else
    ((parse_license_expression r.license).filter
        (fun lic => !decide (lic ∈ allow))).map (allowMsg r.crate_name)

/-- All violations a single report contributes. -/
def perReportViolations (deny allow : List String) (r : LicenseReport) : List String :=
  denyHits deny r ++ allowHits allow r

theorem foldl_if_push {p : String → Prop} [DecidablePred p] (g : String → String) :
    ∀ (subs acc : List String),
      subs.foldl (fun a lic => if p lic then a ++ [g lic] else a) acc =
        acc ++ (subs.filter (fun lic => decide (p lic))).map g := by
  intro subs
  induction subs with
  | nil => intro acc; simp
  | cons x xs ih =>
    intro acc
    by_cases h : p x <;> simp [List.foldl_cons, h, ih, List.filter_cons]

theorem foldl_if_skip {p : String → Prop} [DecidablePred p] (g : String → String) :
    ∀ (subs acc : List String),
      subs.foldl (fun a lic => if p lic then a else a ++ [g lic]) acc =
        acc ++ (subs.filter (fun lic => !decide (p lic))).map g := by
  intro subs
  induction subs with
  | nil => intro acc; simp
  | cons x xs ih =>
    intro acc
    by_cases h : p x <;> simp [List.foldl_cons, h, ih, List.filter_cons]

theorem collectViolations_eq_flatten (deny allow : List String) :
    ∀ (reports : List LicenseReport) (acc : List String),
      reports.foldl
          (fun acc r =>
            let subLicenses := parse_license_expression r.license
            let acc1 :=
              if deny = [] then acc
              else
                subLicenses.foldl
                  (fun a lic => if lic ∈ deny then a ++ [denyMsg r.crate_name lic] else a)
                  acc
            if allow = [] then acc1
            else
              subLicenses.foldl
                (fun a lic => if lic ∈ allow then a else a ++ [allowMsg r.crate_name lic])
                acc1)
          acc =
        acc ++ (reports.map (perReportViolations deny allow)).flatten := by
  intro reports
  induction reports with
  | nil => intro acc; simp
  | cons r rest ih =>
    intro acc
    rw [List.foldl_cons, ih]
    have hstep :
        (let subLicenses := parse_license_expression r.license
          let acc1 :=
            if deny = [] then acc
            else
              subLicenses.foldl
                (fun a lic => if lic ∈ deny then a ++ [denyMsg r.crate_name lic] else a)
                acc
          if allow = [] then acc1
          else
            subLicenses.foldl
              (fun a lic => if lic ∈ allow then a else a ++ [allowMsg r.crate_name lic])
              acc1) =
          acc ++ perReportViolations deny allow r := by
      show (if allow = [] then _ else _) = _
      unfold perReportViolations denyHits allowHits
      by_cases hd : deny = [] <;> by_cases ha : allow = [] <;>
        simp [hd, ha, foldl_if_push, foldl_if_skip]
    rw [hstep]
    simp [List.map_cons, List.flatten_cons, List.append_assoc]

/-- The violation accumulator decomposes into per-report contributions. -/
theorem collectViolations_flatten (reports : List LicenseReport) (deny allow : List String) :
    collectViolations reports deny allow =
      (reports.map (perReportViolations deny allow)).flatten := by
  have h := collectViolations_eq_flatten deny allow reports []
  simpa [collectViolations] using h

theorem collectViolations_nil_nil (reports : List LicenseReport) :
    collectViolations reports [] [] = [] := by
  rw [collectViolations_flatten]
  simp [perReportViolations, denyHits, allowHits]

theorem collectViolations_singleton (r : LicenseReport) (deny allow : List String) :
    collectViolations [r] deny allow = denyHits deny r ++ allowHits allow r := by
  rw [collectViolations_flatten]
  simp [perReportViolations]

/-! ### Claims about the tokenizer and the policy checker -/

/-- Claim C3: in the check operation the user-supplied deny and allow lists are
expanded through the license tokenizer before any membership comparison, so the
single deny entry "MIT OR Apache-2.0" behaves exactly like the two independent
deny tokens "MIT" and "Apache-2.0" for every report checked. -/
theorem C3_user_lists_expanded_before_check :
    expand_user_input ["MIT OR Apache-2.0"] = ["MIT", "Apache-2.0"] ∧
    ∀ (reports : List LicenseReport) (allow : List String),
      run_check reports ["MIT OR Apache-2.0"] allow =
        run_check reports ["MIT", "Apache-2.0"] allow := by
  refine ⟨by decide, fun reports allow => ?_⟩
  have h : expand_user_input ["MIT OR Apache-2.0"] = expand_user_input ["MIT", "Apache-2.0"] := by
    decide
  unfold run_check
  rw [h]

/-- Claim C4: the tokenizer normalizes the four boolean-operator spellings to a
separator, splits, trims whitespace and parentheses, and drops empty pieces;
hence the four example tokenizations of the spec, and no output token is ever
the empty string. -/
theorem C4_tokenizer_spec :
    (∀ s : String, "" ∉ parse_license_expression s) ∧
    parse_license_expression "MIT OR Apache-2.0" = ["MIT", "Apache-2.0"] ∧
    parse_license_expression "(MIT AND Apache-2.0)" = ["MIT", "Apache-2.0"] ∧
    parse_license_expression "MIT" = ["MIT"] ∧
    parse_license_expression "" = [] := by
  refine ⟨fun s hmem => ?_, by decide, by decide, by decide, by decide⟩
  unfold parse_license_expression at hmem
  obtain ⟨l, hl, hmk⟩ := List.mem_map.mp hmem
  have hne : l ≠ [] := by
    have := (List.mem_filter.mp hl).2
    simpa [List.isEmpty_iff] using this
  apply hne
  have : (String.mk l).data = "".data := by rw [hmk]
  simpa using this

/-- Claim C5: check_licenses fails exactly when the accumulated violation list
over all reports is non-empty, with the error carrying the newline-joined list
of all violation messages; with both lists empty it succeeds on any reports. -/
theorem C5_check_error_iff_violations :
    (∀ (reports : List LicenseReport) (deny allow : List String),
        (check_licenses reports deny allow = Except.ok () ↔
          collectViolations reports deny allow = []) ∧
        (collectViolations reports deny allow ≠ [] →
          check_licenses reports deny allow =
            Except.error
              ("License check found these violations:\n" ++
                String.intercalate "\n" (collectViolations reports deny allow)))) ∧
    ∀ reports : List LicenseReport, check_licenses reports [] [] = Except.ok () := by
  constructor
  · intro reports deny allow
    constructor
    · by_cases h : collectViolations reports deny allow = [] <;> simp [check_licenses, h]
    · intro h
      simp [check_licenses, h]
  · intro reports
    unfold check_licenses
    simp [collectViolations_nil_nil]

/-- Witness for C5 at a concrete violating input. -/
theorem C5_check_error_iff_violations_witness :
    collectViolations [⟨"somecrate", "1.0.0", "MIT"⟩] ["MIT"] [] ≠ [] ∧
    check_licenses [⟨"somecrate", "1.0.0", "MIT"⟩] ["MIT"] [] =
      Except.error
        ("License check found these violations:\n" ++
          String.intercalate "\n" (collectViolations [⟨"somecrate", "1.0.0", "MIT"⟩] ["MIT"] [])) :=
  ⟨by decide,
    (C5_check_error_iff_violations.1 [⟨"somecrate", "1.0.0", "MIT"⟩] ["MIT"] []).2 (by decide)⟩

/-- Claim C6: with a non-empty deny list, each tokenized sub-license of a
report that lies in the deny list produces exactly one violation naming the
crate and that token, and tokens outside the deny list produce none; in
particular deny ["GPL-3.0"] against license "GPL-3.0 OR MIT" produces exactly
the one violation for the GPL-3.0 token. -/
theorem C6_deny_rule :
    (∀ (deny : List String) (r : LicenseReport), deny ≠ [] →
        collectViolations [r] deny [] =
          ((parse_license_expression r.license).filter
              (fun lic => decide (lic ∈ deny))).map (denyMsg r.crate_name)) ∧
    collectViolations [⟨"mycrate", "1.2.3", "GPL-3.0 OR MIT"⟩] ["GPL-3.0"] [] =
      ["Crate 'mycrate': sub-license 'GPL-3.0' is in the deny list."] := by
  constructor
  · intro deny r hd
    rw [collectViolations_singleton]
    simp [denyHits, allowHits, hd]
  · decide

/-- Witness for C6 at a concrete non-empty deny list. -/
theorem C6_deny_rule_witness :
    collectViolations [⟨"mycrate", "1.2.3", "GPL-3.0 OR MIT"⟩] ["GPL-3.0"] [] =
      ((parse_license_expression "GPL-3.0 OR MIT").filter
          (fun lic => decide (lic ∈ ["GPL-3.0"]))).map (denyMsg "mycrate") :=
  C6_deny_rule.1 ["GPL-3.0"] ⟨"mycrate", "1.2.3", "GPL-3.0 OR MIT"⟩ (by decide)

/-- Claim C7: with a non-empty allow list, each tokenized sub-license of a
report that is absent from the allow list produces a violation naming the crate
and that token, while tokens in the allow list produce none; in particular
allow ["MIT"] against license "MIT AND Apache-2.0" produces exactly the one
violation for the Apache-2.0 token. -/
theorem C7_allow_rule :
    (∀ (allow : List String) (r : LicenseReport), allow ≠ [] →
        collectViolations [r] [] allow =
          ((parse_license_expression r.license).filter
              (fun lic => !decide (lic ∈ allow))).map (allowMsg r.crate_name)) ∧
    collectViolations [⟨"mycrate", "1.2.3", "MIT AND Apache-2.0"⟩] [] ["MIT"] =
      ["Crate 'mycrate': sub-license 'Apache-2.0' is NOT in the allow list."] := by
  constructor
  · intro allow r ha
    rw [collectViolations_singleton]
    simp [denyHits, allowHits, ha]
  · decide

/-- Witness for C7 at a concrete non-empty allow list. -/
theorem C7_allow_rule_witness :
    collectViolations [⟨"mycrate", "1.2.3", "MIT AND Apache-2.0"⟩] [] ["MIT"] =
      ((parse_license_expression "MIT AND Apache-2.0").filter
          (fun lic => !decide (lic ∈ ["MIT"]))).map (allowMsg "mycrate") :=
  C7_allow_rule.1 ["MIT"] ⟨"mycrate", "1.2.3", "MIT AND Apache-2.0"⟩ (by decide)

/-- Claim C10: the checker tokenizes every report license field uniformly,
including the placeholder "No license listed"; for any non-empty allow list not
containing that placeholder token, such a report yields exactly one allow-rule
violation (in particular at least one). -/
theorem C10_placeholder_checked_uniformly :
    ∀ (allow : List String) (name ver : String), allow ≠ [] →
      "No license listed" ∉ allow →
      collectViolations [⟨name, ver, "No license listed"⟩] [] allow =
        [allowMsg name "No license listed"] ∧
      collectViolations [⟨name, ver, "No license listed"⟩] [] allow ≠ [] := by
  intro allow name ver ha hmem
  have heq : collectViolations [⟨name, ver, "No license listed"⟩] [] allow =
      [allowMsg name "No license listed"] := by
    rw [collectViolations_singleton]
    have htok : parse_license_expression "No license listed" = ["No license listed"] := by
      decide
    simp [denyHits, allowHits, ha, htok, hmem]
  exact ⟨heq, by simp [heq]⟩

/-- Witness for C10 at a concrete allow list missing the placeholder token. -/
theorem C10_placeholder_checked_uniformly_witness :
    collectViolations [⟨"somecrate", "0.1.0", "No license listed"⟩] [] ["MIT"] =
      [allowMsg "somecrate" "No license listed"] ∧
    collectViolations [⟨"somecrate", "0.1.0", "No license listed"⟩] [] ["MIT"] ≠ [] :=
  C10_placeholder_checked_uniformly ["MIT"] "somecrate" "0.1.0" (by decide) (by decide)

/-! ### The report builder (src/fetch.rs, build_license_report) -/

/-- src/parse.rs, `Dep`. -/
structure Dep where
  name : String
  version_req : String
deriving Repr, DecidableEq

/-- src/fetch.rs, `build_license_report`.  The per-dependency resolution
(`fetch_best_match` applied to the shared HTTP client) is abstracted as the
function argument `resolve`; the `FuturesUnordered` collection loop, which
yields one result per launched task in an unspecified completion order, is
modelled as collection in input order (the cardinality and the per-dependency
record contents are independent of completion order).  A resolution error is
caught and converted into a failure-flavored report; the function itself
always returns `Ok`. -/
def build_license_report (resolve : Dep → Except String (String × Option String))
    (deps : List Dep) : Except String (List LicenseReport) :=
  Except.ok <|
    deps.map fun dep =>
      match resolve dep with
      | Except.ok (matchedVer, license) =>
        { crate_name := dep.name
          matched_version := matchedVer
          license := license.getD "No license listed" }
      | Except.error e =>
        { crate_name := dep.name
          matched_version := "unknown"
          license := "Failed: " ++ e }

/-- Claim C1: the report builder returns exactly one report per input
dependency (it always succeeds as a whole, with output cardinality equal to
input cardinality), and a failed resolution yields a report with
matched_version "unknown" and license "Failed: " followed by the error
message. -/
theorem C1_report_builder_total :
    ∀ (resolve : Dep → Except String (String × Option String)) (deps : List Dep),
      ∃ reports : List LicenseReport,
        build_license_report resolve deps = Except.ok reports ∧
        reports.length = deps.length ∧
        ∀ (i : Nat) (dep : Dep), deps[i]? = some dep →
          ∀ e : String, resolve dep = Except.error e →
            reports[i]? =
              some ⟨dep.name, "unknown", "Failed: " ++ e⟩ := by
  intro resolve deps
  refine ⟨_, rfl, by simp, ?_⟩
  intro i dep hget e herr
  rw [List.getElem?_map, hget]
  simp [herr]

/-- Witness for C1: a resolver that always fails still produces one report per
dependency, with the failure recorded in the license field. -/
theorem C1_report_builder_total_witness :
    ∃ reports : List LicenseReport,
      build_license_report (fun _ => Except.error "boom") [⟨"serde", "1.0"⟩] =
        Except.ok reports ∧
      reports.length = 1 ∧
      reports[0]? = some ⟨"serde", "unknown", "Failed: boom"⟩ := by
  obtain ⟨reports, hok, hlen, hspec⟩ :=
    C1_report_builder_total (fun _ => Except.error "boom") [⟨"serde", "1.0"⟩]
  exact ⟨reports, hok, by simpa using hlen,
    hspec 0 ⟨"serde", "1.0"⟩ rfl "boom" rfl⟩

/-! ### The dependency extractor (src/parse.rs) -/

/-- The dedup key used by src/parse.rs lines 43-51: the (name, version_req)
pair. -/
def depKey (d : Dep) : String × String := (d.name, d.version_req)

/-- One entry of a TOML dependency table, restricted to the shape
src/parse.rs `parse_deps_table` inspects: a plain version string, a table
(of which only the string-valued "version" key and the boolean-valued
"optional" key are read; a missing or non-string "version" is `none`, a
missing or non-boolean "optional" is `none`), or any other TOML value. -/
inductive TomlDepItem where
  | str (verReq : String)
  | table (version : Option String) (optionalFlag : Option Bool)
  | other
deriving Repr, DecidableEq

/-- src/parse.rs, `parse_deps_table`: one `Dep` per table entry, skipping
entries marked optional when requested and defaulting the version requirement
to the sentinel "unspecified". -/
def parse_deps_table (table : List (String × TomlDepItem)) (skipOptional : Bool) :
    List Dep :=
  table.filterMap fun nameItem =>
    match nameItem.2 with
    | .str v => some ⟨nameItem.1, v⟩
    | .table version optionalFlag =>
      if skipOptional && optionalFlag == some true then none
      else some ⟨nameItem.1, version.getD "unspecified"⟩
    | .other => some ⟨nameItem.1, "unspecified"⟩

/-- The three dependency tables of a manifest that src/parse.rs
`parse_cargo_toml` reads ([dependencies], [dev-dependencies],
[build-dependencies]), each absent or present. -/
structure Manifest where
  dependencies : Option (List (String × TomlDepItem))
  devDependencies : Option (List (String × TomlDepItem))
  buildDependencies : Option (List (String × TomlDepItem))

/-- src/parse.rs lines 24-41: the concatenation of the parsed groups, dev and
build included only when their flag is set. -/
def collectedDeps (m : Manifest) (includeDev includeBuild skipOptional : Bool) :
    List Dep :=
  (match m.dependencies with
    | some t => parse_deps_table t skipOptional
    | none => []) ++
  (if includeDev then
    (match m.devDependencies with
      | some t => parse_deps_table t skipOptional
      | none => [])
  else []) ++
  (if includeBuild then
    (match m.buildDependencies with
      | some t => parse_deps_table t skipOptional
      | none => [])
  else [])

/-- src/parse.rs lines 43-51: the dedup loop, keeping the first occurrence of
every (name, version_req) key.  The Rust HashSet of seen keys is modelled as a
list with membership. -/
def dedupLoop (seen : List (String × String)) : List Dep → List Dep
  | [] => []
  | d :: rest =>
    if depKey d ∈ seen then dedupLoop seen rest
    else d :: dedupLoop (depKey d :: seen) rest

/-- src/parse.rs, `parse_cargo_toml`, with the file reading and TOML
deserialization abstracted into the `Manifest` argument. -/
def parse_cargo_toml (m : Manifest) (includeDev includeBuild skipOptional : Bool) :
    List Dep :=
  dedupLoop [] (collectedDeps m includeDev includeBuild skipOptional)

theorem dedupLoop_not_seen :
    ∀ (l : List Dep) (seen : List (String × String)) (d : Dep),
      d ∈ dedupLoop seen l → depKey d ∉ seen := by
  intro l
  induction l with
  | nil => intro seen d h; simp [dedupLoop] at h
  | cons x rest ih =>
    intro seen d h
    by_cases hx : depKey x ∈ seen
    · rw [dedupLoop, if_pos hx] at h
      exact ih seen d h
    · rw [dedupLoop, if_neg hx] at h
      rcases List.mem_cons.mp h with rfl | h2
      · exact hx
      · intro hseen
        exact ih _ d h2 (List.mem_cons_of_mem _ hseen)

theorem dedupLoop_pairwise :
    ∀ (l : List Dep) (seen : List (String × String)),
      List.Pairwise (fun a b => depKey a ≠ depKey b) (dedupLoop seen l) := by
  intro l
  induction l with
  | nil => intro seen; simp [dedupLoop]
  | cons x rest ih =>
    intro seen
    by_cases hx : depKey x ∈ seen
    · rw [dedupLoop, if_pos hx]; exact ih seen
    · rw [dedupLoop, if_neg hx]
      refine List.pairwise_cons.mpr ⟨?_, ih _⟩
      intro b hb heq
      exact dedupLoop_not_seen rest _ b hb (heq ▸ List.mem_cons_self _ _)

theorem dedupLoop_complete :
    ∀ (l : List Dep) (seen : List (String × String)) (d : Dep), d ∈ l →
      depKey d ∈ seen ∨ ∃ d2 ∈ dedupLoop seen l, depKey d2 = depKey d := by
  intro l
  induction l with
  | nil => intro seen d h; simp at h
  | cons x rest ih =>
    intro seen d h
    rcases List.mem_cons.mp h with rfl | h2
    · by_cases hx : depKey d ∈ seen
      · exact Or.inl hx
      · exact Or.inr ⟨d, by rw [dedupLoop, if_neg hx]; exact List.mem_cons_self _ _, rfl⟩
    · by_cases hx : depKey x ∈ seen
      · rcases ih seen d h2 with hseen | ⟨d2, hd2, hkey⟩
        · exact Or.inl hseen
        · exact Or.inr ⟨d2, by rw [dedupLoop, if_pos hx]; exact hd2, hkey⟩
      · rcases ih (depKey x :: seen) d h2 with hseen | ⟨d2, hd2, hkey⟩
        · rcases List.mem_cons.mp hseen with heq | hseen2
          · refine Or.inr ⟨x, ?_, heq.symm⟩
            rw [dedupLoop, if_neg hx]
            exact List.mem_cons_self _ _
          · exact Or.inl hseen2
        · refine Or.inr ⟨d2, ?_, hkey⟩
          rw [dedupLoop, if_neg hx]
          exact List.mem_cons_of_mem _ hd2

/-- Claim C9: for every manifest and flag combination the extractor output has
pairwise-distinct (name, version_req) keys, and every dependency collected
from an included group is represented by some output entry with the same
key. -/
theorem C9_extractor_dedup :
    ∀ (m : Manifest) (includeDev includeBuild skipOptional : Bool),
      List.Pairwise (fun a b => depKey a ≠ depKey b)
        (parse_cargo_toml m includeDev includeBuild skipOptional) ∧
      ∀ d ∈ collectedDeps m includeDev includeBuild skipOptional,
        ∃ d2 ∈ parse_cargo_toml m includeDev includeBuild skipOptional,
          depKey d2 = depKey d := by
  intro m includeDev includeBuild skipOptional
  refine ⟨dedupLoop_pairwise _ [], fun d hd => ?_⟩
  rcases dedupLoop_complete (collectedDeps m includeDev includeBuild skipOptional) [] d hd with
    hseen | hex
  · simp at hseen
  · exact hex

/-- Witness for C9: a dependency duplicated across the normal and dev groups
appears in the collected list and is represented in the deduplicated output. -/
theorem C9_extractor_dedup_witness :
    List.Pairwise (fun a b => depKey a ≠ depKey b)
      (parse_cargo_toml
        ⟨some [("serde", TomlDepItem.str "1.0")], some [("serde", TomlDepItem.str "1.0")], none⟩
        true true false) ∧
    ∃ d2 ∈ parse_cargo_toml
        ⟨some [("serde", TomlDepItem.str "1.0")], some [("serde", TomlDepItem.str "1.0")], none⟩
        true true false,
      depKey d2 = depKey ⟨"serde", "1.0"⟩ := by
  have h := C9_extractor_dedup
    ⟨some [("serde", TomlDepItem.str "1.0")], some [("serde", TomlDepItem.str "1.0")], none⟩
    true true false
  exact ⟨h.1, h.2 ⟨"serde", "1.0"⟩ (by decide)⟩

/-! ### The semver crate: versions and their ordering

src/fetch.rs delegates version parsing, version ordering and requirement
matching to the external semver crate (the same semantics as the Rust
standard cargo requirement grammar).  The following definitions embed that
crate's documented behaviour: a version is major.minor.patch with optional
dot-separated pre-release and build-metadata identifiers, ordered
lexicographically by numeric components, then by the SemVer pre-release rule
(no pre-release ranks above any pre-release; numeric identifiers compare
numerically and below alphanumeric ones), then by the crate's total order on
build metadata. -/

/-- A parsed semver version.  Pre-release and build identifiers are kept as
their character lists (`[]` meaning the component is absent). -/
structure Version where
  major : Nat
  minor : Nat
  patch : Nat
  pre : List (List Char)
  build : List (List Char)
deriving Repr, DecidableEq

/-- Character comparison by code point (agrees with Rust byte-wise string
comparison, since UTF-8 preserves code-point order). -/
def charCmp (a b : Char) : Ordering :=
  compare a.toNat b.toNat

/-- Lexicographic comparison of lists under an element comparator; a strict
prefix is smaller. -/
def listCmpWith (f : α → α → Ordering) : List α → List α → Ordering
  | [], [] => .eq
  | [], _ :: _ => .lt
  | _ :: _, [] => .gt
  | x :: xs, y :: ys => (f x y).then (listCmpWith f xs ys)

/-- Lexicographic string comparison on character lists. -/
def charListCmp (a b : List Char) : Ordering :=
  listCmpWith charCmp a b

/-- Comparison of single pre-release identifiers, as in the semver crate:
all-numeric identifiers compare numerically (no leading zeros, so by length
then lexically) and rank below alphanumeric ones, which compare lexically. -/
def preIdCmp (a b : List Char) : Ordering :=
  match a.all Char.isDigit, b.all Char.isDigit with
  | true, true => (compare a.length b.length).then (charListCmp a b)
  | true, false => .lt
  | false, true => .gt
  | false, false => charListCmp a b

/-- Comparison of pre-release components: an absent pre-release ranks above
any present one, otherwise identifiers compare lexicographically. -/
def preCmp (a b : List (List Char)) : Ordering :=
  match a.isEmpty, b.isEmpty with
  | true, true => .eq
  | true, false => .gt
  | false, true => .lt
  | false, false => listCmpWith preIdCmp a b

/-- Comparison of single build-metadata identifiers, as in the semver crate:
all-numeric identifiers (leading zeros allowed) compare by trimmed value and
then by raw length, and rank below other identifiers, which compare
lexically. -/
def buildIdCmp (a b : List Char) : Ordering :=
  match a.all Char.isDigit, b.all Char.isDigit with
  | true, true =>
    ((compare (a.dropWhile (· = '0')).length (b.dropWhile (· = '0')).length).then
        (charListCmp (a.dropWhile (· = '0')) (b.dropWhile (· = '0')))).then
      (compare a.length b.length)
  | true, false => .lt
  | false, true => .gt
  | false, false => charListCmp a b

/-- Comparison of build-metadata components. -/
def buildCmp (a b : List (List Char)) : Ordering :=
  listCmpWith buildIdCmp a b

/-- The semver crate's total order on versions: major, minor, patch,
pre-release, build metadata. -/
def Version.cmp (a b : Version) : Ordering :=
  (compare a.major b.major).then
    ((compare a.minor b.minor).then
      ((compare a.patch b.patch).then
        ((preCmp a.pre b.pre).then (buildCmp a.build b.build))))

/-! ### The semver crate: parsing versions -/

/-- Splits at the first occurrence of `sep`: returns the part before it and,
when present, the part after it. -/
def breakAt (sep : Char) : List Char → List Char × Option (List Char)
  | [] => ([], none)
  | c :: rest =>
    if c = sep then ([], some rest)
    else
      let r := breakAt sep rest
      (c :: r.1, r.2)

/-- Parses a numeric semver component: non-empty, all digits, no leading
zeros. -/
def parseNumNoLZ (s : List Char) : Option Nat :=
  if s.isEmpty then none
  else if !s.all Char.isDigit then none
  else
    match s with
    | '0' :: _ :: _ => none
    | _ => some (s.foldl (fun n c => n * 10 + (c.toNat - 48)) 0)

/-- A character allowed in pre-release and build identifiers. -/
def isIdentChar (c : Char) : Bool :=
  c.isAlphanum || c = '-'

/-- A valid pre-release identifier: non-empty, identifier characters only,
and no leading zero when all-numeric. -/
def validPreId (s : List Char) : Bool :=
  !s.isEmpty && s.all isIdentChar &&
    (!s.all Char.isDigit ||
      (match s with
        | '0' :: _ :: _ => false
        | _ => true))

/-- A valid build identifier: non-empty, identifier characters only. -/
def validBuildId (s : List Char) : Bool :=
  !s.isEmpty && s.all isIdentChar

/-- The semver crate's `Version::parse`: mandatory major.minor.patch numeric
core, optional pre-release after the first dash following the core, optional
build metadata after the first plus. -/
def parseVersion (s : String) : Option Version :=
  let withBuild := breakAt '+' s.data
  let withPre := breakAt '-' withBuild.1
  match splitOnChar '.' withPre.1 with
  | [a, b, c] =>
    match parseNumNoLZ a, parseNumNoLZ b, parseNumNoLZ c with
    | some major, some minor, some patch =>
      let preIds :=
        match withPre.2 with
        | none => some []
        | some p =>
          let ids := splitOnChar '.' p
          if ids.all validPreId then some ids else none
      let buildIds :=
        match withBuild.2 with
        | none => some []
        | some bp =>
          let ids := splitOnChar '.' bp
          if ids.all validBuildId then some ids else none
      match preIds, buildIds with
      | some pre, some build => some ⟨major, minor, patch, pre, build⟩
      | _, _ => none
    | _, _, _ => none
  | _ => none

/-- Renders dot-separated identifiers. -/
def identsToString (ids : List (List Char)) : String :=
  String.intercalate "." (ids.map fun l => String.mk l)

/-- The semver crate's `Display` for `Version` (used by the resolver through
`v.to_string()`). -/
def versionToString (v : Version) : String :=
  toString v.major ++ "." ++ toString v.minor ++ "." ++ toString v.patch ++
    (if v.pre.isEmpty then "" else "-" ++ identsToString v.pre) ++
    (if v.build.isEmpty then "" else "+" ++ identsToString v.build)

/-! ### The semver crate: version requirements -/

/-- A comparator operator of the semver requirement grammar. -/
inductive ReqOp where
  | exactOp
  | greaterOp
  | greaterEqOp
  | lessOp
  | lessEqOp
  | tildeOp
  | caretOp
deriving Repr, DecidableEq

/-- One comparator of a version requirement: an operator applied to a
possibly partial version (minor and patch may be absent) with an optional
pre-release. -/
structure Comparator where
  op : ReqOp
  major : Nat
  minor : Option Nat
  patch : Option Nat
  pre : List (List Char)
deriving Repr, DecidableEq

/-- Pre-release greater-or-equal, used by the tilde and caret matchers. -/
def preGe (a b : List (List Char)) : Bool :=
  preCmp a b ≠ Ordering.lt

/-- The semver crate's `matches_exact`: equal on every specified component
and on the pre-release. -/
def matchesExact (c : Comparator) (v : Version) : Bool :=
  v.major == c.major &&
    (match c.minor with
      | some m => v.minor == m
      | none => true) &&
    (match c.patch with
      | some p => v.patch == p
      | none => true) &&
    v.pre == c.pre

/-- The semver crate's `matches_greater`. -/
def matchesGreater (c : Comparator) (v : Version) : Bool :=
  if v.major ≠ c.major then decide (v.major > c.major)
  else
    match c.minor with
    | none => false
    | some m =>
      if v.minor ≠ m then decide (v.minor > m)
      else
        match c.patch with
        | none => false
        | some p =>
          if v.patch ≠ p then decide (v.patch > p)
          else preCmp v.pre c.pre == Ordering.gt

/-- The semver crate's `matches_less`. -/
def matchesLess (c : Comparator) (v : Version) : Bool :=
  if v.major ≠ c.major then decide (v.major < c.major)
  else
    match c.minor with
    | none => false
    | some m =>
      if v.minor ≠ m then decide (v.minor < m)
      else
        match c.patch with
        | none => false
        | some p =>
          if v.patch ≠ p then decide (v.patch < p)
          else preCmp v.pre c.pre == Ordering.lt

/-- The semver crate's `matches_tilde`: same major, same minor when given,
patch at least the given one. -/
def matchesTilde (c : Comparator) (v : Version) : Bool :=
  v.major == c.major &&
    (match c.minor with
      | some m => v.minor == m
      | none => true) &&
    (match c.patch with
      | some p => if v.patch ≠ p then decide (v.patch > p) else preGe v.pre c.pre
      | none => preGe v.pre c.pre)

/-- The semver crate's `matches_caret`: compatible within the leftmost
non-zero component. -/
def matchesCaret (c : Comparator) (v : Version) : Bool :=
  if v.major ≠ c.major then false
  else
    match c.minor with
    | none => true
    | some minor =>
      match c.patch with
      | none =>
        if c.major > 0 then decide (v.minor ≥ minor)
        else v.minor == minor
      | some patch =>
        if c.major > 0 then
          if v.minor ≠ minor then decide (v.minor > minor)
          else if v.patch ≠ patch then decide (v.patch > patch)
          else preGe v.pre c.pre
        else if minor > 0 then
          if v.minor ≠ minor then false
          else if v.patch ≠ patch then decide (v.patch > patch)
          else preGe v.pre c.pre
        else
          if v.minor ≠ minor || v.patch ≠ patch then false
          else preGe v.pre c.pre

/-- Dispatch on the comparator operator, as in the semver crate's
`matches_impl`. -/
def matchesComparator (c : Comparator) (v : Version) : Bool :=
  match c.op with
  | .exactOp => matchesExact c v
  | .greaterOp => matchesGreater c v
  | .greaterEqOp => matchesExact c v || matchesGreater c v
  | .lessOp => matchesLess c v
  | .lessEqOp => matchesExact c v || matchesLess c v
  | .tildeOp => matchesTilde c v
  | .caretOp => matchesCaret c v

/-- The semver crate's `pre_is_compatible`: a comparator opts a pre-release
version in only when it carries a pre-release at the same
major.minor.patch. -/
def preIsCompatible (c : Comparator) (v : Version) : Bool :=
  c.major == v.major && c.minor == some v.minor && c.patch == some v.patch &&
    !c.pre.isEmpty

/-- The semver crate's `matches_req`: every comparator must match, and a
pre-release version additionally needs some comparator that is pre-release
compatible with it. -/
def matchesReq (cs : List Comparator) (v : Version) : Bool :=
  cs.all (fun c => matchesComparator c v) &&
    (v.pre.isEmpty || cs.any (fun c => preIsCompatible c v))

/-- Parses a leading requirement operator; a bare version defaults to caret,
as in cargo requirement syntax. -/
def parseOp (s : List Char) : ReqOp × List Char :=
  match s with
  | '>' :: '=' :: rest => (.greaterEqOp, rest)
  | '<' :: '=' :: rest => (.lessEqOp, rest)
  | '>' :: rest => (.greaterOp, rest)
  | '<' :: rest => (.lessOp, rest)
  | '=' :: rest => (.exactOp, rest)
  | '~' :: rest => (.tildeOp, rest)
  | '^' :: rest => (.caretOp, rest)
  | _ => (.caretOp, s)

/-- Parses one comparator: an optional operator, optional spaces, then
major[.minor[.patch[-pre]]].  This embeds the part of the semver requirement
grammar the repository exercises; wildcard components and build metadata in
requirements are not modelled and yield `none`. -/
def parseComparator (s : List Char) : Option Comparator :=
  let opRest := parseOp s
  let afterOp := opRest.2.dropWhile (· = ' ')
  match parseNumNoLZ (afterOp.takeWhile Char.isDigit) with
  | none => none
  | some major =>
    match afterOp.dropWhile Char.isDigit with
    | [] => some ⟨opRest.1, major, none, none, []⟩
    | '.' :: r2 =>
      match parseNumNoLZ (r2.takeWhile Char.isDigit) with
      | none => none
      | some minor =>
        match r2.dropWhile Char.isDigit with
        | [] => some ⟨opRest.1, major, some minor, none, []⟩
        | '.' :: r4 =>
          match parseNumNoLZ (r4.takeWhile Char.isDigit) with
          | none => none
          | some patch =>
            match r4.dropWhile Char.isDigit with
            | [] => some ⟨opRest.1, major, some minor, some patch, []⟩
            | '-' :: p =>
              let ids := splitOnChar '.' p
              if ids.all validPreId then
                some ⟨opRest.1, major, some minor, some patch, ids⟩
              else none
            | _ => none
        | _ => none
    | _ => none

/-- Trims ASCII spaces from both ends. -/
def trimSpaces (s : List Char) : List Char :=
  ((s.dropWhile (· = ' ')).reverse.dropWhile (· = ' ')).reverse

/-- The semver crate's `VersionReq::parse` for the modelled grammar:
comma-separated comparators, each non-empty after trimming. -/
def reqParse (s : String) : Option (List Comparator) :=
  let parts := (splitOnChar ',' s.data).map trimSpaces
  if parts.any (fun p => p.isEmpty) then none
  else parts.mapM parseComparator

/-! ### The version resolver (src/fetch.rs, fetch_best_match) -/

/-- One entry of the crates.io versions response (src/fetch.rs,
`CratesIoVersion`): the version number string and the declared license. -/
structure CratesIoVersion where
  num : String
  license : Option String
deriving Repr, DecidableEq

/-- src/fetch.rs lines 87-98: keep exactly the fetched entries whose version
string parses as semver and satisfies the requirement, paired with their
license; unparsable version strings are skipped. -/
def licenseMatches (req : Version → Bool) (versions : List CratesIoVersion) :
    List (Version × Option String) :=
  versions.filterMap fun cv =>
    match parseVersion cv.num with
    | some v => if req v then some (v, cv.license) else none
    | none => none

/-- src/fetch.rs line 100: the Rust stable `sort_by` with comparator
`b.0.cmp(&a.0)` (descending by version), modelled as a stable insertion
sort. -/
def sortDescByVersion (l : List (Version × Option String)) :
    List (Version × Option String) :=
  List.insertionSort (fun a b => Version.cmp b.1 a.1 ≠ Ordering.gt) l

/-- src/fetch.rs lines 100-106, the selection step: sort the matches
descending and return the first, rendered through `Display`. -/
def resolveBest (req : Version → Bool) (versions : List CratesIoVersion) :
    Option (String × Option String) :=
  match (sortDescByVersion (licenseMatches req versions)).head? with
  | some (v, lic) => some (versionToString v, lic)
  | none => none

/-- src/fetch.rs, `fetch_best_match`, with the HTTP fetch stripped: the
already-retrieved version list is a parameter.  The sentinel "unspecified" is
replaced by ">=0" before parsing the requirement (lines 79-83). -/
def fetch_best_match (constraint : String) (versions : List CratesIoVersion) :
    Except String (String × Option String) :=
  match reqParse (if constraint = "unspecified" then ">=0" else constraint) with
  | none => Except.error ("Semver parse error (constraint=" ++ constraint ++ ")")
  | some cs =>
    match resolveBest (matchesReq cs) versions with
    | some out => Except.ok out
    | none => Except.error ("No crates.io versions matched constraint=" ++ constraint)

/-! ### Lawfulness of the version comparators

The selection step takes the head of a list sorted by `Version.cmp`; proving
that this head is a maximum needs `Version.cmp` to be an oriented transitive
comparator in the sense of the Batteries order classes. -/

open Batteries

/-- Pullback of a lawful comparator along a function. -/
theorem transCmp_pullback {β : Type} (f : α → β) (c : β → β → Ordering)
    [h : TransCmp c] : TransCmp (fun a b => c (f a) (f b)) where
  symm a b := h.symm (f a) (f b)
  le_trans h1 h2 := h.le_trans h1 h2

instance : TransCmp charCmp where
  symm a b := Nat.compare_swap a.toNat b.toNat
  le_trans h1 h2 :=
    Nat.compare_ne_gt.mpr (Nat.le_trans (Nat.compare_ne_gt.mp h1) (Nat.compare_ne_gt.mp h2))

theorem listCmpWith_swap (f : α → α → Ordering) [OrientedCmp f] :
    ∀ a b : List α, (listCmpWith f a b).swap = listCmpWith f b a
  | [], [] => rfl
  | [], _ :: _ => rfl
  | _ :: _, [] => rfl
  | x :: xs, y :: ys => by
    simp only [listCmpWith, Ordering.swap_then]
    rw [OrientedCmp.symm x y, listCmpWith_swap f xs ys]

theorem listCmpWith_le_trans (f : α → α → Ordering) [TransCmp f] :
    ∀ x y z : List α,
      listCmpWith f x y ≠ .gt → listCmpWith f y z ≠ .gt → listCmpWith f x z ≠ .gt := by
  intro x
  induction x with
  | nil =>
    intro y z _ _
    cases z <;> simp [listCmpWith]
  | cons a as ih =>
    intro y z h1 h2
    cases y with
    | nil => exact absurd rfl h1
    | cons b bs =>
      cases z with
      | nil => exact absurd rfl h2
      | cons c cs =>
        simp only [listCmpWith, ne_eq, Ordering.then_eq_gt, not_or, not_and] at h1 h2 ⊢
        refine ⟨TransCmp.le_trans h1.1 h2.1, fun e1 e2 => ?_⟩
        match ab : f a b with
        | .gt => exact h1.1 ab
        | .eq => exact ih bs cs (h1.2 ab) (h2.2 (TransCmp.cmp_congr_left ab ▸ e1)) e2
        | .lt => exact h2.1 ((OrientedCmp.cmp_eq_gt).2 (TransCmp.cmp_congr_left e1 ▸ ab))

instance (f : α → α → Ordering) [TransCmp f] : TransCmp (listCmpWith f) where
  symm a b := listCmpWith_swap f a b
  le_trans h1 h2 := listCmpWith_le_trans f _ _ _ h1 h2

instance : TransCmp charListCmp :=
  inferInstanceAs (TransCmp (listCmpWith charCmp))

/-- The all-numeric branch of `preIdCmp` as a lexicographic comparator. -/
theorem transCmp_numeric_pre :
    TransCmp (fun a b : List Char => (compare a.length b.length).then (charListCmp a b)) :=
  inferInstanceAs (TransCmp (compareLex (compareOn List.length) charListCmp))

theorem charListCmp_swap (a b : List Char) :
    (charListCmp a b).swap = charListCmp b a :=
  listCmpWith_swap charCmp a b

theorem preIdCmp_swap (a b : List Char) : (preIdCmp a b).swap = preIdCmp b a := by
  cases ha : a.all Char.isDigit <;> cases hb : b.all Char.isDigit <;>
    simp only [preIdCmp, ha, hb]
  · exact charListCmp_swap a b
  · rfl
  · rfl
  · rw [Ordering.swap_then, Nat.compare_swap, charListCmp_swap]

theorem preIdCmp_le_trans :
    ∀ x y z : List Char, preIdCmp x y ≠ .gt → preIdCmp y z ≠ .gt → preIdCmp x z ≠ .gt := by
  intro x y z h1 h2
  cases hx : x.all Char.isDigit <;> cases hy : y.all Char.isDigit <;>
    cases hz : z.all Char.isDigit <;>
    simp only [preIdCmp, hx, hy, hz] at h1 h2 ⊢ <;>
    first
      | decide
      | exact absurd rfl h1
      | exact absurd rfl h2
      | exact transCmp_numeric_pre.le_trans h1 h2
      | exact listCmpWith_le_trans charCmp x y z h1 h2

instance : TransCmp preIdCmp where
  symm a b := preIdCmp_swap a b
  le_trans h1 h2 := preIdCmp_le_trans _ _ _ h1 h2

theorem preCmp_swap (a b : List (List Char)) : (preCmp a b).swap = preCmp b a := by
  cases a with
  | nil =>
    cases b with
    | nil => rfl
    | cons y ys => rfl
  | cons x xs =>
    cases b with
    | nil => rfl
    | cons y ys => exact listCmpWith_swap preIdCmp (x :: xs) (y :: ys)

theorem preCmp_le_trans :
    ∀ x y z : List (List Char), preCmp x y ≠ .gt → preCmp y z ≠ .gt → preCmp x z ≠ .gt := by
  intro x y z h1 h2
  cases x with
  | nil =>
    cases z with
    | nil => exact fun h => nomatch h
    | cons c cs =>
      cases y with
      | nil => exact absurd rfl h2
      | cons b bs => exact absurd rfl h1
  | cons a as =>
    cases z with
    | nil => exact fun h => nomatch h
    | cons c cs =>
      cases y with
      | nil => exact absurd rfl h2
      | cons b bs => exact listCmpWith_le_trans preIdCmp _ _ _ h1 h2

instance : TransCmp preCmp where
  symm a b := preCmp_swap a b
  le_trans h1 h2 := preCmp_le_trans _ _ _ h1 h2

/-- The all-numeric branch of `buildIdCmp` as a lexicographic comparator. -/
theorem transCmp_numeric_build :
    TransCmp (fun a b : List Char =>
      ((compare (a.dropWhile (· = '0')).length (b.dropWhile (· = '0')).length).then
          (charListCmp (a.dropWhile (· = '0')) (b.dropWhile (· = '0')))).then
        (compare a.length b.length)) := by
  haveI h1 : TransCmp
      (fun a b : List Char => charListCmp (a.dropWhile (· = '0')) (b.dropWhile (· = '0'))) :=
    transCmp_pullback (fun a : List Char => a.dropWhile (· = '0')) charListCmp
  exact inferInstanceAs (TransCmp (compareLex
    (compareLex (compareOn fun a : List Char => (a.dropWhile (· = '0')).length)
      (fun a b : List Char => charListCmp (a.dropWhile (· = '0')) (b.dropWhile (· = '0'))))
    (compareOn List.length)))

theorem buildIdCmp_swap (a b : List Char) : (buildIdCmp a b).swap = buildIdCmp b a := by
  cases ha : a.all Char.isDigit <;> cases hb : b.all Char.isDigit <;>
    simp only [buildIdCmp, ha, hb]
  · exact charListCmp_swap a b
  · rfl
  · rfl
  · rw [Ordering.swap_then, Ordering.swap_then, Nat.compare_swap, Nat.compare_swap,
      charListCmp_swap]

theorem buildIdCmp_le_trans :
    ∀ x y z : List Char, buildIdCmp x y ≠ .gt → buildIdCmp y z ≠ .gt → buildIdCmp x z ≠ .gt := by
  intro x y z h1 h2
  cases hx : x.all Char.isDigit <;> cases hy : y.all Char.isDigit <;>
    cases hz : z.all Char.isDigit <;>
    simp only [buildIdCmp, hx, hy, hz] at h1 h2 ⊢ <;>
    first
      | decide
      | exact absurd rfl h1
      | exact absurd rfl h2
      | exact transCmp_numeric_build.le_trans h1 h2
      | exact listCmpWith_le_trans charCmp x y z h1 h2

instance : TransCmp buildIdCmp where
  symm a b := buildIdCmp_swap a b
  le_trans h1 h2 := buildIdCmp_le_trans _ _ _ h1 h2

instance : TransCmp buildCmp :=
  inferInstanceAs (TransCmp (listCmpWith buildIdCmp))

/-- The version order is the lexicographic composition of its five component
comparators. -/
theorem version_cmp_as_lex :
    Version.cmp = compareLex (compareOn Version.major)
      (compareLex (compareOn Version.minor)
        (compareLex (compareOn Version.patch)
          (compareLex (fun a b => preCmp a.pre b.pre)
            (fun a b => buildCmp a.build b.build)))) := rfl

instance : TransCmp Version.cmp := by
  haveI hp : TransCmp (fun a b : Version => preCmp a.pre b.pre) :=
    transCmp_pullback Version.pre preCmp
  haveI hb : TransCmp (fun a b : Version => buildCmp a.build b.build) :=
    transCmp_pullback Version.build buildCmp
  rw [version_cmp_as_lex]
  infer_instance

/-! ### The selected version is a maximum of the filtered set -/

theorem sortDesc_head_max (l : List (Version × Option String))
    (p : Version × Option String) (h : (sortDescByVersion l).head? = some p) :
    p ∈ l ∧ ∀ u ∈ l, Version.cmp u.1 p.1 ≠ Ordering.gt := by
  haveI ht : IsTrans (Version × Option String)
      (fun a b => Version.cmp b.1 a.1 ≠ Ordering.gt) :=
    ⟨fun _ _ _ h1 h2 => TransCmp.le_trans h2 h1⟩
  haveI hto : IsTotal (Version × Option String)
      (fun a b => Version.cmp b.1 a.1 ≠ Ordering.gt) := by
    refine ⟨fun a b => ?_⟩
    by_cases hab : Version.cmp b.1 a.1 = Ordering.gt
    · right
      rw [OrientedCmp.cmp_eq_gt] at hab
      simp [hab]
    · exact Or.inl hab
  obtain ⟨q, t, hsort⟩ : ∃ q t, sortDescByVersion l = q :: t := by
    cases hs : sortDescByVersion l with
    | nil => rw [hs] at h; simp at h
    | cons q t => exact ⟨q, t, rfl⟩
  rw [hsort] at h
  have hqp : q = p := by simpa using h
  subst hqp
  have hsorted :=
    List.sorted_insertionSort (fun a b => Version.cmp b.1 a.1 ≠ Ordering.gt) l
  rw [show List.insertionSort (fun a b => Version.cmp b.1 a.1 ≠ Ordering.gt) l =
      sortDescByVersion l from rfl, hsort] at hsorted
  have hperm :=
    List.perm_insertionSort (fun a b => Version.cmp b.1 a.1 ≠ Ordering.gt) l
  constructor
  · refine hperm.subset ?_
    show q ∈ sortDescByVersion l
    rw [hsort]
    exact List.mem_cons_self _ _
  · intro u hu
    have hu2 : u ∈ q :: t := by
      rw [← hsort]
      exact hperm.mem_iff.mpr hu
    rcases List.mem_cons.mp hu2 with rfl | hut
    · simp [OrientedCmp.cmp_refl]
    · exact (List.pairwise_cons.mp hsorted).1 u hut

theorem licenseMatches_mem (req : Version → Bool) (versions : List CratesIoVersion)
    (v : Version) (lic : Option String) :
    (v, lic) ∈ licenseMatches req versions ↔
      ∃ cv ∈ versions, parseVersion cv.num = some v ∧ req v = true ∧ cv.license = lic := by
  unfold licenseMatches
  rw [List.mem_filterMap]
  constructor
  · rintro ⟨cv, hcv, hf⟩
    refine ⟨cv, hcv, ?_⟩
    cases hp : parseVersion cv.num with
    | none => rw [hp] at hf; exact absurd hf (by simp)
    | some w =>
      rw [hp] at hf
      by_cases hr : req w
      · simp only [hr, if_true] at hf
        have hinj : w = v ∧ cv.license = lic := by simpa using hf
        exact ⟨by rw [hinj.1], hinj.1 ▸ hr, hinj.2⟩
      · simp [hr] at hf
  · rintro ⟨cv, hcv, hp, hr, hl⟩
    exact ⟨cv, hcv, by simp [hp, hr, hl]⟩

/-- Claim C2: the resolver works on exactly the fetched entries whose version
string parses as semver and satisfies the requirement (unparsable entries are
skipped without error), and it returns a maximum of that filtered set under
the semver order; in particular versions 1.0.0, 1.2.0, 2.0.0 under "^1"
resolve to 1.2.0. -/
theorem C2_resolver_filter_and_max :
    (∀ (req : Version → Bool) (versions : List CratesIoVersion),
        (∀ (v : Version) (lic : Option String),
            (v, lic) ∈ licenseMatches req versions ↔
              ∃ cv ∈ versions,
                parseVersion cv.num = some v ∧ req v = true ∧ cv.license = lic) ∧
        (licenseMatches req versions = [] → resolveBest req versions = none) ∧
        (licenseMatches req versions ≠ [] →
          ∃ best lic, (best, lic) ∈ licenseMatches req versions ∧
            resolveBest req versions = some (versionToString best, lic) ∧
            ∀ u ∈ licenseMatches req versions, Version.cmp u.1 best ≠ Ordering.gt)) ∧
    fetch_best_match "^1"
        [⟨"1.0.0", some "MIT"⟩, ⟨"1.2.0", some "MIT"⟩, ⟨"2.0.0", some "Apache-2.0"⟩] =
      Except.ok ("1.2.0", some "MIT") := by
  refine ⟨fun req versions => ⟨licenseMatches_mem req versions, ?_, ?_⟩, by rfl⟩
  · intro hempty
    unfold resolveBest
    rw [hempty]
    rfl
  · intro hne
    obtain ⟨p, hp⟩ :
        ∃ p, (sortDescByVersion (licenseMatches req versions)).head? = some p := by
      cases hs : sortDescByVersion (licenseMatches req versions) with
      | nil =>
        exfalso
        apply hne
        have hperm :=
          List.perm_insertionSort (fun a b => Version.cmp b.1 a.1 ≠ Ordering.gt)
            (licenseMatches req versions)
        rw [show List.insertionSort (fun a b => Version.cmp b.1 a.1 ≠ Ordering.gt)
            (licenseMatches req versions) =
            sortDescByVersion (licenseMatches req versions) from rfl, hs] at hperm
        exact hperm.symm.eq_nil
      | cons q t => exact ⟨q, rfl⟩
    obtain ⟨pv, plic⟩ := p
    obtain ⟨hmem, hmax⟩ := sortDesc_head_max _ _ hp
    refine ⟨pv, plic, hmem, ?_, fun u hu => hmax u hu⟩
    unfold resolveBest
    rw [hp]

/-- Witness for C2 at the concrete caret requirement and version list. -/
theorem C2_resolver_filter_and_max_witness :
    ∃ best lic,
      (best, lic) ∈ licenseMatches (matchesReq [⟨ReqOp.caretOp, 1, none, none, []⟩])
          [⟨"1.0.0", some "MIT"⟩, ⟨"1.2.0", some "MIT"⟩, ⟨"2.0.0", some "Apache-2.0"⟩] ∧
      resolveBest (matchesReq [⟨ReqOp.caretOp, 1, none, none, []⟩])
          [⟨"1.0.0", some "MIT"⟩, ⟨"1.2.0", some "MIT"⟩, ⟨"2.0.0", some "Apache-2.0"⟩] =
        some (versionToString best, lic) ∧
      ∀ u ∈ licenseMatches (matchesReq [⟨ReqOp.caretOp, 1, none, none, []⟩])
          [⟨"1.0.0", some "MIT"⟩, ⟨"1.2.0", some "MIT"⟩, ⟨"2.0.0", some "Apache-2.0"⟩],
        Version.cmp u.1 best ≠ Ordering.gt :=
  (C2_resolver_filter_and_max.1 (matchesReq [⟨ReqOp.caretOp, 1, none, none, []⟩])
      [⟨"1.0.0", some "MIT"⟩, ⟨"1.2.0", some "MIT"⟩, ⟨"2.0.0", some "Apache-2.0"⟩]).2.2
    (by decide)

/-- Claim C8, amended: the sentinel "unspecified" behaves identically to the
constraint ">=0"; under the semver crate's matching rules ">=0" is satisfied
by every version without a pre-release component (so the resolver selects the
maximum published non-pre-release version), while versions carrying a
pre-release never match it. -/
theorem C8_unspecified_equiv_geq0 :
    (∀ (versions : List CratesIoVersion) (out : String × Option String),
        fetch_best_match "unspecified" versions = Except.ok out ↔
          fetch_best_match ">=0" versions = Except.ok out) ∧
    (∀ r, reqParse ">=0" = some r →
        ∀ v : Version, matchesReq r v = decide (v.pre = [])) := by
  constructor
  · intro versions out
    unfold fetch_best_match
    rw [if_pos rfl, if_neg (by decide)]
    rw [show reqParse ">=0" = some [⟨ReqOp.greaterEqOp, 0, none, none, []⟩] from by decide]
    cases hb : resolveBest (matchesReq [⟨ReqOp.greaterEqOp, 0, none, none, []⟩]) versions <;>
      simp [hb]
  · intro r hr v
    have hr0 : reqParse ">=0" = some [⟨ReqOp.greaterEqOp, 0, none, none, []⟩] := by decide
    rw [hr0] at hr
    cases hr
    by_cases hpre : v.pre = []
    · simp only [matchesReq, List.all_cons, List.all_nil, List.any_cons, List.any_nil,
        matchesComparator, preIsCompatible, hpre, decide_True]
      by_cases hm : v.major = 0
      · simp [matchesExact, matchesGreater, hm, hpre]
      · simp [matchesExact, matchesGreater, hm, hpre]
        omega
    · simp [matchesReq, preIsCompatible, hpre]

/-- Witness for C8 at the parsed ">=0" requirement and a concrete version. -/
theorem C8_unspecified_equiv_geq0_witness :
    matchesReq [⟨ReqOp.greaterEqOp, 0, none, none, []⟩] ⟨1, 2, 3, [], []⟩ =
      decide ((Version.mk 1 2 3 [] []).pre = []) :=
  C8_unspecified_equiv_geq0.2 [⟨ReqOp.greaterEqOp, 0, none, none, []⟩] (by decide)
    ⟨1, 2, 3, [], []⟩

/-- Claim C8, counterexample to the literal claim: "1.0.0-alpha" is a valid
semantic version, yet it does not satisfy ">=0" under the semver crate's
rules (a comparator without a pre-release matches no pre-release version), so
the resolver invoked with "unspecified" on this fetched list fails instead of
selecting the maximum published version. -/
theorem C8_prerelease_counterexample :
    parseVersion "1.0.0-alpha" = some ⟨1, 0, 0, [['a', 'l', 'p', 'h', 'a']], []⟩ ∧
    reqParse ">=0" = some [⟨ReqOp.greaterEqOp, 0, none, none, []⟩] ∧
    matchesReq [⟨ReqOp.greaterEqOp, 0, none, none, []⟩]
        ⟨1, 0, 0, [['a', 'l', 'p', 'h', 'a']], []⟩ = false ∧
    fetch_best_match "unspecified" [⟨"1.0.0-alpha", some "MIT"⟩] =
      Except.error "No crates.io versions matched constraint=unspecified" ∧
    fetch_best_match ">=0" [⟨"1.0.0-alpha", some "MIT"⟩] =
      Except.error "No crates.io versions matched constraint=>=0" :=
  ⟨by decide, by decide, by decide, by rfl, by rfl⟩

end CargoLicenses
